import Mathlib

/-!
Verification of the data-grep search engine.

The TypeScript sources are shallowly embedded: JS strings become `List Char`,
the results of `text.matchAll(regex)` become an explicit list of `RawMatch`
records (the regex engine itself is external), JS numbers used for progress
arithmetic become `ℚ`, and the stateful pagination loop of
`grepService.fetchAndProcessRequests` becomes a structural recursion over the
list of pages served by the host store.
-/

namespace DataGrep

/-- The result of `hay.indexOf(pat)` in JS, as an `Option`:
`some k` is the first index at which `pat` occurs as a contiguous
sublist of `hay`, `none` means JS would return `-1`. -/
def indexOfSub (hay pat : List Char) : Option Nat :=
  match hay with
  | [] => if pat = [] then some 0 else none
  | c :: t =>
    if pat.isPrefixOf (c :: t) then some 0
    else (indexOfSub t pat).map (· + 1)

/-- `slice s a b` is JS `s.substring(a, b)` for `a ≤ b`. -/
def slice (s : List Char) (a b : Nat) : List Char :=
  (s.drop a).take (b - a)

/-- A single element of the iterator returned by `text.matchAll(regex)`:
`index` is `match.index`, `whole` is `match[0]`, and `groups.get? (i-1)`
models `match[i]` for `i ≥ 1` (`none` = the group did not participate). -/
structure RawMatch where
  index : Nat
  whole : List Char
  groups : List (Option (List Char))
deriving DecidableEq, Repr

/-- JS `match[i]`. -/
def RawMatch.getGroup (m : RawMatch) (i : Nat) : Option (List Char) :=
  if i = 0 then some m.whole else (m.groups.getD (i - 1) none)

/-- What the JS regex engine guarantees about an element of
`text.matchAll(...)`: the whole-match substring really occurs
at `index` in `text`. -/
def RawMatch.WF (text : List Char) (m : RawMatch) : Prop :=
  m.index + m.whole.length ≤ text.length ∧
    (text.drop m.index).take m.whole.length = m.whole

instance (text : List Char) (m : RawMatch) : Decidable (m.WF text) := by
  unfold RawMatch.WF; infer_instance

/-- Every defined capture group of `m` occurs as a contiguous substring of
the whole match.  True for regexes without lookaround capture groups; a
lookbehind such as the JS regex (?<=(ab))c violates it. -/
def groupsInWhole (m : RawMatch) : Bool :=
  m.groups.all (fun g =>
    match g with
    | none => true
    | some v => (indexOfSub m.whole v).isSome)

structure ExtractedMatch where
  value : List Char
  startIndex : Nat
  endIndex : Nat
deriving DecidableEq, Repr

/-- The whole-match result pushed by `extractMatches` on the
`!matchGroups || matchGroups.length === 0` path and on the
no-listed-group-participated fallback path. -/
def wholeExtract (m : RawMatch) : ExtractedMatch :=
  { value := m.whole, startIndex := m.index, endIndex := m.index + m.whole.length }

/-- The `for (const groupIndex of matchGroups)` scan with its `break`:
first listed group index whose captured value is defined, paired with
that value. -/
def firstDefinedGroup (m : RawMatch) : List Nat → Option (Nat × List Char)
  | [] => none
  | g :: rest =>
    match m.getGroup g with
    | some v => some (g, v)
    | none => firstDefinedGroup m rest

/-- Body of the `for (const match of matches)` loop of `extractMatches`
(src/packages/backend/src/utils/grep.ts, lines 89-126). -/
def extractFromRaw (matchGroups : Option (List Nat)) (m : RawMatch) : ExtractedMatch :=
  match matchGroups with
  | none => wholeExtract m
  | some gs =>
    if gs.length = 0 then wholeExtract m
    else
      match firstDefinedGroup m gs with
      | some p =>
        let off := (indexOfSub m.whole p.2).getD 0
        { value := p.2, startIndex := m.index + off, endIndex := m.index + off + p.2.length }
      | none => wholeExtract m

/-- `extractMatches(text, regex, matchGroups)` with the regex engine
abstracted: `rawMatches` stands for `Array.from(text.matchAll(new
RegExp(regex, "g")))`. -/
def extractMatches (text : List Char) (rawMatches : List RawMatch)
    (matchGroups : Option (List Nat)) : List ExtractedMatch :=
  if text = [] then []
  else rawMatches.map (extractFromRaw matchGroups)

/-! ## Transform evaluator (`applyTransform`, src/unnamed/part_000 lines 45-54) -/

/-- A JS value as far as `applyTransform` can observe it: `jsOther`
carries the result of JS `String(result)` for a non-string,
non-null, non-undefined value. -/
inductive JSValue where
  | jsNull
  | jsUndefined
  | jsString (s : List Char)
  | jsOther (stringified : List Char)
deriving DecidableEq, Repr

/-- Outcome of running the user script built by `new Function("match", script)`
on one input: it either returns a value or throws. -/
inductive ExecOutcome where
  | ok (v : JSValue)
  | thrown
deriving DecidableEq, Repr

/-- JS `String(result)` restricted to the values of `JSValue`. -/
def jsStringify : JSValue → List Char
  | .jsNull => ("null").data
  | .jsUndefined => ("undefined").data
  | .jsString s => s
  | .jsOther s => s

/-- `applyTransform(value, script)`: the script itself is abstracted by its
input/output behaviour `script : List Char → ExecOutcome`. -/
def applyTransform (value : List Char) (script : List Char → ExecOutcome) :
    Option (List Char) :=
  match script value with
  | .thrown => some value
  | .ok .jsNull => none
  | .ok .jsUndefined => none
  | .ok (.jsString s) => some s
  | .ok (.jsOther s) => some (jsStringify (.jsOther s))

/-! ## Options (`GrepOptions`, src/packages/shared/src/results.ts) -/

/-- `GrepOptions`; `transformScript` is the abstracted behaviour of the
user script (JS `string | null` collapses its truthiness into the
`Option`). -/
structure GrepOptions where
  includeRequests : Bool
  includeResponses : Bool
  maxResults : Option Nat
  matchGroups : Option (List Nat)
  onlyInScope : Bool
  skipLargeResponses : Bool
  customHTTPQL : Option String
  cleanupOutput : Bool
  transformScript : Option (List Char → ExecOutcome)

/-- JS truthiness of a `string | null` value: `null` and `""` are falsy. -/
def strTruthy : Option String → Bool
  | none => false
  | some s => !(s = ("") : Bool)

/-- JS truthiness of a `number | null` value: `null` and `0` are falsy. -/
def numTruthy : Option Nat → Bool
  | none => false
  | some n => !(n = 0 : Bool)

/-! ## Filter expression builder (`buildRegexFilter`,
src/packages/backend/src/utils/grep.ts lines 6-65) -/

def CLEANUP_EXTENSIONS : List String :=
  [("%.apng"), ("%.avif"), ("%.gif"), ("%.jpg"), ("%.jpeg"), ("%.pjpeg"),
   ("%.pjp"), ("%.png"), ("%.svg"), ("%.webp"), ("%.bmp"), ("%.ico"),
   ("%.cur"), ("%.tif"), ("%.tiff"), ("%.mp4"), ("%.mp3"), ("%.ttf")]

/-- First pass of the escape: `.replace(/\\/g, "\\\\")`. -/
def escapeBackslashes : List Char → List Char
  | [] => []
  | c :: t =>
    if c = '\\' then '\\' :: '\\' :: escapeBackslashes t
    else c :: escapeBackslashes t

/-- Second pass of the escape: `.replace(/"/g, '\\"')`. -/
def escapeQuotes : List Char → List Char
  | [] => []
  | c :: t =>
    if c = '"' then '\\' :: '"' :: escapeQuotes t
    else c :: escapeQuotes t

/-- `regex.source.replace(/\\/g, "\\\\").replace(/"/g, '\\"')`. -/
def escapeRegexSource (s : String) : String :=
  String.mk (escapeQuotes (escapeBackslashes s.data))

/-- JS `Array.prototype.join`. -/
def joinSep (sep : String) : List String → String
  | [] => ""
  | [x] => x
  | x :: y :: xs => x ++ sep ++ joinSep sep (y :: xs)

/-- `buildRegexFilter(regex, options)`; `source` is `regex.source`. -/
def buildRegexFilter (source : String) (options : GrepOptions) : String :=
  let escapedRegexStr := escapeRegexSource source
  let filters : List String :=
    (if options.includeRequests
      then [("req.raw.regex:\"") ++ escapedRegexStr ++ ("\"")] else []) ++
    (if options.includeResponses
      then [("resp.raw.regex:\"") ++ escapedRegexStr ++ ("\"")] else [])
  let regexFilter0 : String :=
    if filters.length > 0 then ("(") ++ joinSep (" or ") filters ++ (")")
    else ""
  let regexFilter1 : String :=
    if strTruthy options.customHTTPQL then
      options.customHTTPQL.getD ("") ++ (" and ") ++ regexFilter0
    else regexFilter0
  let regexFilter2 : String :=
    if options.skipLargeResponses then
      regexFilter1 ++ (" and resp.len.lt:10485760")
    else
      regexFilter1 ++ (" and resp.len.lt:104857600")
  CLEANUP_EXTENSIONS.foldl
    (fun acc ext => acc ++ (" and req.ext.nlike:\"") ++ ext ++ ("\"")) regexFilter2

/-! Spec-side restatement of the filter builder, following §4.2 of the
spec sentence by sentence, to be compared with `buildRegexFilter`. -/

/-- Modelled from the spec: escaping of one character for the filter
language's quoted-string syntax, "backslash and double-quote escaping
only", done in a single pass. -/
def escapeCharSpec (c : Char) : List Char :=
  if c = '\\' then ['\\', '\\']
  else if c = '"' then ['\\', '"']
  else [c]

/-- Modelled from the spec: single-pass escape of the whole pattern source. -/
def escapeSpec (s : String) : String :=
  String.mk (s.data.map escapeCharSpec).flatten

/-- Modelled from the spec: the fixed extension-denylist exclusion suffix. -/
def extensionDenylistSpec : String :=
  CLEANUP_EXTENSIONS.foldl
    (fun acc ext => acc ++ (" and req.ext.nlike:\"") ++ ext ++ ("\"")) ""

/-- Modelled from the spec: the `request-raw-matches(pattern)` term. -/
def reqTermSpec (pat : String) : String :=
  ("req.raw.regex:\"") ++ pat ++ ("\"")

/-- Modelled from the spec: the `response-raw-matches(pattern)` term. -/
def respTermSpec (pat : String) : String :=
  ("resp.raw.regex:\"") ++ pat ++ ("\"")

/-- Modelled from the spec (§4.2): custom filter prepended when present, a
parenthesized OR of the request/response regex terms gated by the two
include flags (empty when neither is set), the response-size bound
(10,485,760 bytes when `skipLargeResponses`, else 104,857,600), then the
extension denylist, combined as one AND chain. -/
def buildRegexFilterSpec (source : String) (o : GrepOptions) : String :=
  let pat := escapeSpec source
  let core : String :=
    if o.includeRequests && o.includeResponses then
      ("(") ++ reqTermSpec pat ++ (" or ") ++ respTermSpec pat ++ (")")
    else if o.includeRequests then ("(") ++ reqTermSpec pat ++ (")")
    else if o.includeResponses then ("(") ++ respTermSpec pat ++ (")")
    else ""
  let withCustom : String :=
    if strTruthy o.customHTTPQL then
      o.customHTTPQL.getD ("") ++ (" and ") ++ core
    else core
  let withBound : String :=
    if o.skipLargeResponses then withCustom ++ (" and resp.len.lt:10485760")
    else withCustom ++ (" and resp.len.lt:104857600")
  withBound ++ extensionDenylistSpec

/-! ## Match results (`MatchResult`, src/packages/shared/src/results.ts) and
`findMatchesInRequestResponse` (src/unnamed/part_000 lines 323-369) -/

inductive Source where
  | request
  | response
deriving DecidableEq, Repr

structure MatchResult where
  value : List Char
  requestId : String
  source : Source
  startIndex : Nat
  endIndex : Nat
deriving DecidableEq, Repr

/-- One record of a fetched page: the request's id and scope flag, its
raw text with the regex engine's matches on it, and the same for the
response when one exists. -/
structure Item where
  id : Nat
  inScope : Bool
  reqText : List Char
  reqRaw : List RawMatch
  resp : Option (List Char × List RawMatch)
deriving DecidableEq, Repr

def findMatchesInRequestResponse (item : Item) (matchGroups : Option (List Nat))
    (includeRequests includeResponses : Bool) : List MatchResult :=
  let requestId := toString item.id
  (if includeRequests then
    (extractMatches item.reqText item.reqRaw matchGroups).map
      (fun e => { value := e.value, requestId, source := Source.request,
                  startIndex := e.startIndex, endIndex := e.endIndex })
  else []) ++
  (if includeResponses then
    match item.resp with
    | some respData =>
      (extractMatches respData.1 respData.2 matchGroups).map
        (fun e => { value := e.value, requestId, source := Source.response,
                    startIndex := e.startIndex, endIndex := e.endIndex })
    | none => []
  else [])

/-! ## Result store (`grepStore`, src/unnamed/part_000 lines 25-43) and the
per-run match map, both insertion-ordered maps keyed by the match value -/

abbrev MatchMap := List (List Char × MatchResult)

/-- `this.matches.has(k)`. -/
def hasKey (m : MatchMap) (k : List Char) : Bool :=
  m.any (fun p => p.1 = k)

/-- `this.matches.get(k)`. -/
def mapLookup (m : MatchMap) (k : List Char) : Option MatchResult :=
  match m.find? (fun p => p.1 = k) with
  | some p => some p.2
  | none => none

/-- `grepStore.addMatch`: insert keyed by `value` unless present; the
boolean is its return value. -/
def addMatch (s : MatchMap) (mr : MatchResult) : MatchMap × Bool :=
  if hasKey s mr.value then (s, false)
  else (s ++ [(mr.value, mr)], true)

/-! ## The cleanup / transform pipeline applied to each raw match
(src/unnamed/part_000 lines 266-282) -/

/-- The character class of JS `String.prototype.trim`. -/
def isJsWhitespace (c : Char) : Bool :=
  c = ' ' || c = '\t' || c = '\n' || c = '\r' ||
  c.toNat = 0x0B || c.toNat = 0x0C || c.toNat = 0xA0 || c.toNat = 0xFEFF ||
  c.toNat = 0x2028 || c.toNat = 0x2029

def jsTrim (s : List Char) : List Char :=
  ((s.dropWhile isJsWhitespace).reverse.dropWhile isJsWhitespace).reverse

/-- The test `/[^\x20-\x7E]/.test(processedValue)`. -/
def containsNonPrintable (s : List Char) : Bool :=
  s.any (fun c => c.toNat < 0x20 || 0x7E < c.toNat)

/-- The body of the per-match pipeline: trim, cleanup filter, empty filter,
optional transform with re-trim and re-filter.  `none` means the match is
discarded (`continue`), `some pv` is the final dedup key / stored value. -/
def processValue (options : GrepOptions) (v : List Char) : Option (List Char) :=
  let processedValue := jsTrim v
  if options.cleanupOutput && containsNonPrintable processedValue then none
  else if processedValue.length = 0 then none
  else
    match options.transformScript with
    | none => some processedValue
    | some script =>
      match applyTransform processedValue script with
      | none => none
      | some transformed =>
        let processedValue2 := jsTrim transformed
        if processedValue2.length = 0 then none
        else some processedValue2

/-! ## The pagination loop (`fetchAndProcessRequests`,
src/unnamed/part_000 lines 185-318) -/

/-- The events sent through `sdk.api.send` during a run:
`caidogrep:progress` payloads and the two forms of `caidogrep:matches`
payloads. -/
inductive Event where
  | progressEv (n : Int)
  | matchesArr (ms : List MatchResult)
  | matchesCount (n : Nat)
deriving DecidableEq, Repr

structure LoopState where
  matchesMap : MatchMap
  store : MatchMap
  sentMatchCount : Nat
  events : List Event
  processedRequestID : Nat
deriving DecidableEq, Repr

def initialLoopState : LoopState :=
  { matchesMap := [], store := [], sentMatchCount := 0, events := [],
    processedRequestID := 0 }

/-- The break condition `maxResults && matches.size >= maxResults`
(`0` and `null` are falsy). -/
def maxReachedB (maxResults : Option Nat) (size : Nat) : Bool :=
  match maxResults with
  | none => false
  | some k => !(k = 0 : Bool) && decide (k ≤ size)

/-- The while-condition conjunct `!maxResults || matches.size < maxResults`. -/
def loopCondB (maxResults : Option Nat) (size : Nat) : Bool :=
  match maxResults with
  | none => true
  | some k => (k = 0 : Bool) || decide (size < k)

/-- The inner `for (const matchResult of newMatches)` loop with its
`continue`s and its post-insertion `break`. -/
def processMatchList (options : GrepOptions) :
    List MatchResult → MatchMap → MatchMap → MatchMap × MatchMap
  | [], m, s => (m, s)
  | mr :: rest, m, s =>
    match processValue options mr.value with
    | none => processMatchList options rest m s
    | some pv =>
      if hasKey m pv then processMatchList options rest m s
      else
        let finalMatch : MatchResult := { mr with value := pv }
        let m2 := m ++ [(pv, finalMatch)]
        let s2 := (addMatch s finalMatch).1
        if maxReachedB options.maxResults m2.length then (m2, s2)
        else processMatchList options rest m2 s2

/-- The outer `for (const item of result.items)` loop: records the
processed id, breaks once `maxResults` is reached, skips out-of-scope
records, and feeds each record's matches through the pipeline. -/
def processItems (options : GrepOptions) :
    List Item → LoopState → LoopState
  | [], st => st
  | item :: rest, st =>
    let st1 := { st with processedRequestID := item.id }
    if maxReachedB options.maxResults st1.matchesMap.length then st1
    else if options.onlyInScope && !item.inScope then processItems options rest st1
    else
      let newMatches := findMatchesInRequestResponse item options.matchGroups
        options.includeRequests options.includeResponses
      let ms2 := processMatchList options newMatches st1.matchesMap st1.store
      processItems options rest { st1 with matchesMap := ms2.1, store := ms2.2 }

/-- The progress computation
`Math.min(Math.floor((processedRequestID / lastRequestId) * 100), 99)`,
with JS numbers modelled as exact rationals. -/
def progressCalc (processedId lastId : Nat) : Int :=
  min ⌊((processedId : ℚ) / (lastId : ℚ)) * 100⌋ 99

/-- The page-end emission block (src/unnamed/part_000 lines 299-308). -/
def emitMatches (st : LoopState) : LoopState :=
  if st.matchesMap.length > st.sentMatchCount then
    let newMatchResults := (st.matchesMap.map (fun p => p.2)).drop st.sentMatchCount
    let ev :=
      if st.sentMatchCount > 25000 then Event.matchesCount newMatchResults.length
      else Event.matchesArr newMatchResults
    { st with events := st.events ++ [ev], sentMatchCount := st.matchesMap.length }
  else st

/-- One iteration of the while loop: progress emission, the page's item
loop, then the matches emission. -/
def processPage (options : GrepOptions) (lastRequestId : Nat)
    (page : List Item) (st : LoopState) : LoopState :=
  let st0 := { st with events :=
    st.events ++ [Event.progressEv (progressCalc st.processedRequestID lastRequestId)] }
  let st1 := processItems options page st0
  emitMatches st1

/-- The whole pagination loop of `fetchAndProcessRequests`: the host's
pages are consumed in cursor order until they run out (`hasNextPage`
false) or the while condition fails.  The run flag stays active (no
concurrent `stopGrep`). -/
def fetchAndProcessRequests (options : GrepOptions) (lastRequestId : Nat) :
    List (List Item) → LoopState → LoopState
  | [], st => st
  | page :: rest, st =>
    if loopCondB options.maxResults st.matchesMap.length then
      fetchAndProcessRequests options lastRequestId rest
        (processPage options lastRequestId page st)
    else st

/-- Total number of raw matches extracted across all pages the host can
serve (the claims bound the distinct count by this). -/
def totalRawMatches (options : GrepOptions) (pages : List (List Item)) : Nat :=
  (pages.map (fun page => (page.map (fun item =>
    (findMatchesInRequestResponse item options.matchGroups
      options.includeRequests options.includeResponses).length)).sum)).sum

/-! ## The entry point envelope (`grepRequests` / `executeGrepSearch`,
src/unnamed/part_000 lines 60-180) -/

/-- The environment a single `grepRequests` call runs against:
whether a project is selected, the result of `getLastRequestID`,
whether `new RegExp(pattern, "i")` throws (and with which message), and
the outcome of `fetchAndProcessRequests` (a thrown message or a count). -/
structure ServiceEnv where
  projectPresent : Bool
  lastRequestId : Option Nat
  regexError : Option String
  fetchOutcome : Except String Nat

/-- The `{ matchesCount?: number; error?: string }` value returned by
`executeGrepSearch`. -/
structure ExecResultRec where
  matchesCount : Option Nat
  error : Option String
deriving DecidableEq, Repr

/-- `executeGrepSearch`: precondition failures are returned as an `error`
field of its ordinary result; regex-compile and fetch failures are
thrown (`Except.error`). -/
def executeGrepSearch (env : ServiceEnv) : Except String ExecResultRec :=
  if !env.projectPresent then
    .ok { matchesCount := none, error := some ("No project selected") }
  else if !numTruthy env.lastRequestId then
    .ok { matchesCount := none, error := some ("No requests found") }
  else
    match env.regexError with
    | some msg => .error msg
    | none =>
      match env.fetchOutcome with
      | .error e => .error e
      | .ok n => .ok { matchesCount := some n, error := none }

/-- The value spread into the `data` half: `{ ...result, timeTaken }`. -/
structure GrepData where
  matchesCount : Option Nat
  error : Option String
  timeTaken : Nat
deriving DecidableEq, Repr

/-- The `{ data?, error? }` envelope returned by `grepRequests`. -/
structure GrepEnvelope where
  data : Option GrepData
  error : Option String
deriving DecidableEq, Repr

/-- `grepService.grepRequests`: the single-flight guard, the call to
`executeGrepSearch`, the spread of its result into `data`, and the
catch-all converting thrown errors to the `error` half. -/
def grepRequests (isGrepActive : Bool) (env : ServiceEnv) (timeTaken : Nat) :
    GrepEnvelope :=
  if isGrepActive then
    { data := none, error := some ("A grep scan is already running") }
  else
    match executeGrepSearch env with
    | .ok result =>
      { data := some { matchesCount := result.matchesCount,
                       error := result.error, timeTaken := timeTaken },
        error := none }
    | .error e => { data := none, error := some e }

/-! ## Predicates used to state the claims -/

/-- No two entries of an insertion-ordered map share the same key. -/
def noDupKeys (m : MatchMap) : Prop :=
  (m.map Prod.fst).Nodup

/-- The concatenated payloads of all array-form `matches` events, in
emission order. -/
def joinedArrays : List Event → List MatchResult
  | [] => []
  | Event.matchesArr ms :: rest => ms ++ joinedArrays rest
  | _ :: rest => joinedArrays rest

def isCountEvent : Event → Bool
  | Event.matchesCount _ => true
  | _ => false

def hasCountEvent (evs : List Event) : Bool :=
  evs.any isCountEvent

/-- No array-form `matches` event follows a count-form one. -/
def NoArrAfterCount : List Event → Prop
  | [] => True
  | ev :: rest =>
    (isCountEvent ev = true → ∀ ms, Event.matchesArr ms ∉ rest) ∧
      NoArrAfterCount rest

/-- The invariant of the emission bookkeeping along the pagination loop
(`L` abbreviates the total number of match records sent in array form). -/
structure EmitInv (st : LoopState) : Prop where
  sent_le : st.sentMatchCount ≤ st.matchesMap.length
  arraysTake : joinedArrays st.events =
    (st.matchesMap.map Prod.snd).take (joinedArrays st.events).length
  len_le : (joinedArrays st.events).length ≤ st.sentMatchCount
  crossed : (joinedArrays st.events).length ≠ st.sentMatchCount →
    25000 < (joinedArrays st.events).length
  noArr : NoArrAfterCount st.events
  countCross : hasCountEvent st.events = true → 25000 < st.sentMatchCount
  ev_nonempty : ∀ ev ∈ st.events,
    (∀ ms, ev = Event.matchesArr ms → ms ≠ []) ∧
    (∀ n, ev = Event.matchesCount n → 0 < n)

/-! ## Concrete inputs for counterexamples and witnesses -/

/-- The text "a". -/
def aText : List Char := ['a']

/-- The zero-width raw match that JS `"a".matchAll(/b*/g)` yields at
index 0 (its `match[0]` is the empty string). -/
def mEmpty : RawMatch := { index := 0, whole := [], groups := [] }

/-- The text "abc". -/
def cText : List Char := ['a', 'b', 'c']

/-- The raw match JS `"abc".matchAll(/(?<=(ab))c/g)` yields: the whole
match is "c" at index 2, while group 1 captured "ab", which lies outside
the whole match. -/
def mLookbehind : RawMatch :=
  { index := 2, whole := ['c'], groups := [some ['a', 'b']] }

/-- A raw match of a two-group regex where group 1 participated:
whole match "ab" at index 0, group 1 = "b", group 2 absent. -/
def mGrouped : RawMatch :=
  { index := 0, whole := ['a', 'b'], groups := [some ['b'], none] }

/-- Options used by witnesses: both sources on, no limits, no cleanup,
no transform. -/
def sampleOptions : GrepOptions :=
  { includeRequests := true, includeResponses := false, maxResults := none,
    matchGroups := some [0], onlyInScope := false, skipLargeResponses := false,
    customHTTPQL := none, cleanupOutput := false, transformScript := none }

/-- A one-request page: request text "xy" with one whole-match raw match
"xy" at index 0, in scope, no response. -/
def sampleItem : Item :=
  { id := 1, inScope := true, reqText := ['x', 'y'],
    reqRaw := [{ index := 0, whole := ['x', 'y'], groups := [] }],
    resp := none }

/-- A second request whose raw text yields the same match value "xy",
plus a fresh value "zw". -/
def sampleItem2 : Item :=
  { id := 2, inScope := true, reqText := ['x', 'y', ' ', 'z', 'w'],
    reqRaw := [{ index := 0, whole := ['x', 'y'], groups := [] },
               { index := 3, whole := ['z', 'w'], groups := [] }],
    resp := none }

/-- The environment of a `grepRequests` call made with no project
selected (the store outcome is irrelevant on that path). -/
def envNoProject : ServiceEnv :=
  { projectPresent := false, lastRequestId := none, regexError := none,
    fetchOutcome := Except.ok 0 }

/-- The environment of a `grepRequests` call made with a project but an
empty traffic store. -/
def envNoRequests : ServiceEnv :=
  { projectPresent := true, lastRequestId := none, regexError := none,
    fetchOutcome := Except.ok 0 }

/-! # Theorems -/

/-! ## Basic facts about `indexOfSub` -/

theorem indexOfSub_self (s : List Char) : indexOfSub s s = some 0 := by
  cases s with
  | nil => simp [indexOfSub]
  | cons c t => simp [indexOfSub, List.isPrefixOf_iff_prefix]

theorem indexOfSub_spec (hay pat : List Char) (k : Nat)
    (h : indexOfSub hay pat = some k) :
    k + pat.length ≤ hay.length ∧ (hay.drop k).take pat.length = pat := by
  induction hay generalizing k with
  | nil =>
    simp only [indexOfSub] at h
    split at h
    · rename_i hp
      subst hp
      simp at h
      simp [h]
    · exact absurd h (by simp)
  | cons c t ih =>
    simp only [indexOfSub] at h
    split at h
    · rename_i hp
      rw [ List.isPrefixOf_iff_prefix] at hp
      have hk : k = 0 := by simpa using h.symm
      subst hk
      refine ⟨by simpa using hp.length_le, ?_⟩
      have hpt := List.prefix_iff_eq_take.mp hp
      simpa using hpt.symm
    · rename_i hp
      rcases Option.map_eq_some'.mp h with ⟨k0, hk0, hkeq⟩
      rcases ih k0 hk0 with ⟨hle, htk⟩
      subst hkeq
      constructor
      · simp only [List.length_cons]
        omega
      · simpa using htk

/-! ## Claim C7: the transform evaluator -/

/-- Claim C7: `applyTransform` returns `none` exactly when the script
evaluates without error to null or undefined; it returns the script's
string return as-is and the stringified form of any other return; and on
a thrown execution error it returns the original value unchanged — a
transform failure never discards the match. -/
theorem applyTransform_characterization (v : List Char)
    (script : List Char → ExecOutcome) :
    (applyTransform v script = none ↔
      script v = .ok .jsNull ∨ script v = .ok .jsUndefined) ∧
    (∀ s, script v = .ok (.jsString s) → applyTransform v script = some s) ∧
    (∀ r, script v = .ok r → r ≠ .jsNull → r ≠ .jsUndefined →
      applyTransform v script = some (jsStringify r)) ∧
    (script v = .thrown → applyTransform v script = some v) := by
  unfold applyTransform
  rcases h : script v with r | _
  · rcases r with _ | _ | s | s <;>
      simp [h, jsStringify]
  · simp [h]

/-- Witness for C7 at a concrete script that throws. -/
theorem applyTransform_characterization_witness :
    applyTransform ['a'] (fun _ => ExecOutcome.thrown) = some ['a'] :=
  (applyTransform_characterization ['a'] (fun _ => ExecOutcome.thrown)).2.2.2 rfl

/-! ## Claim C1: the result envelope of the search entry point -/

/-- Counterexample to claim C1 as stated: with no project selected,
`grepRequests` does not put "No project selected" in the `error` half of
the envelope — the message comes back inside the `data` half, because
`executeGrepSearch`'s `{error}` result is spread into `data` (the
repository's own test expects `result.data?.error`). -/
theorem grepRequests_noProject_counterexample :
    (grepRequests false envNoProject 5).error = none ∧
    grepRequests false envNoProject 5 =
      { data := some { matchesCount := none,
                       error := some ("No project selected"), timeTaken := 5 },
        error := none } :=
  ⟨rfl, rfl⟩

/-- Claim C1 as amended: the "already running" rejection and every thrown
internal failure are delivered in the `error` half; the "No project
selected" and "No requests found" preconditions are delivered as an
`error` field nested inside the `data` half (top-level `error` absent);
and the envelope is always one of the two halves — nothing escapes it. -/
theorem grepRequests_envelope (active : Bool) (env : ServiceEnv) (t : Nat) :
    (active = true → grepRequests active env t =
      { data := none, error := some ("A grep scan is already running") }) ∧
    (active = false → env.projectPresent = false →
      grepRequests active env t =
        { data := some { matchesCount := none,
                         error := some ("No project selected"), timeTaken := t },
          error := none }) ∧
    (active = false → env.projectPresent = true →
      numTruthy env.lastRequestId = false →
      grepRequests active env t =
        { data := some { matchesCount := none,
                         error := some ("No requests found"), timeTaken := t },
          error := none }) ∧
    (∀ e, active = false → env.projectPresent = true →
      numTruthy env.lastRequestId = true → env.regexError = none →
      env.fetchOutcome = .error e →
      grepRequests active env t = { data := none, error := some e }) ∧
    ((grepRequests active env t).data.isSome ∨
      (grepRequests active env t).error.isSome) := by
  refine ⟨?_, ?_, ?_, ?_, ?_⟩
  · intro ha
    simp [grepRequests, ha]
  · intro ha hp
    simp [grepRequests, executeGrepSearch, ha, hp]
  · intro ha hp hl
    simp [grepRequests, executeGrepSearch, ha, hp, hl]
  · intro e ha hp hl hr hf
    simp [grepRequests, executeGrepSearch, ha, hp, hl, hr, hf]
  · unfold grepRequests
    split
    · simp
    · split <;> simp

/-- Witness for C1 (amended) on the already-running path. -/
theorem grepRequests_envelope_witness :
    grepRequests true envNoProject 0 =
      { data := none, error := some ("A grep scan is already running") } :=
  (grepRequests_envelope true envNoProject 0).1 rfl

/-! ## Claim C8: the progress computation -/

theorem progressCalc_bounds (p l : Nat) (hl : 1 ≤ l) :
    progressCalc p l = ⌊min ((p : ℚ) / (l : ℚ)) (99 / 100) * 100⌋ ∧
    0 ≤ progressCalc p l ∧ progressCalc p l ≤ 99 := by
  have hl0 : (0 : ℚ) < (l : ℚ) := by exact_mod_cast hl
  have hq0 : (0 : ℚ) ≤ (p : ℚ) / (l : ℚ) := div_nonneg (by positivity) hl0.le
  refine ⟨?_, ?_, min_le_right _ _⟩
  · rcases le_or_lt ((p : ℚ) / (l : ℚ)) (99 / 100) with h | h
    · rw [min_eq_left h]
      have h99 : (p : ℚ) / (l : ℚ) * 100 ≤ 99 := by nlinarith
      have hfl : ⌊(p : ℚ) / (l : ℚ) * 100⌋ ≤ 99 := by
        have := Int.floor_mono h99
        simpa using this
      unfold progressCalc
      rw [min_eq_left hfl]
    · rw [min_eq_right h.le]
      have hprod : ((99 : ℚ) / 100) * 100 = ((99 : ℤ) : ℚ) := by norm_num
      rw [hprod, Int.floor_intCast]
      have h99 : (99 : ℚ) ≤ (p : ℚ) / (l : ℚ) * 100 := by nlinarith
      have hfl : (99 : ℤ) ≤ ⌊(p : ℚ) / (l : ℚ) * 100⌋ :=
        Int.le_floor.mpr (by exact_mod_cast h99)
      unfold progressCalc
      rw [min_eq_right hfl]
  · exact le_min (Int.floor_nonneg.mpr (by positivity)) (by norm_num)

theorem processItems_events_eq (o : GrepOptions) (items : List Item)
    (st : LoopState) :
    (processItems o items st).events = st.events ∧
    (processItems o items st).sentMatchCount = st.sentMatchCount := by
  induction items generalizing st with
  | nil => exact ⟨rfl, rfl⟩
  | cons item rest ih =>
    unfold processItems
    dsimp only
    split
    · exact ⟨rfl, rfl⟩
    · split
      · exact ih _
      · exact ih _

theorem emitMatches_progress_mem (st : LoopState) (n : Int)
    (hn : Event.progressEv n ∈ (emitMatches st).events) :
    Event.progressEv n ∈ st.events := by
  unfold emitMatches at hn
  split at hn
  · by_cases hc : st.sentMatchCount > 25000 <;> simp [hc] at hn <;> exact hn
  · exact hn

theorem runPages_progress_range (o : GrepOptions) (l : Nat) (hl : 1 ≤ l)
    (pages : List (List Item)) :
    ∀ st : LoopState,
      (∀ n : Int, Event.progressEv n ∈ st.events → 0 ≤ n ∧ n ≤ 99) →
      ∀ n : Int,
        Event.progressEv n ∈ (fetchAndProcessRequests o l pages st).events →
        0 ≤ n ∧ n ≤ 99 := by
  induction pages with
  | nil =>
    intro st hst n hn
    exact hst n hn
  | cons pg rest ih =>
    intro st hst n hn
    unfold fetchAndProcessRequests at hn
    split at hn
    · refine ih _ ?_ n hn
      intro m hm
      have hm0 := emitMatches_progress_mem _ _
        (by simpa [processPage] using hm)
      rw [(processItems_events_eq o pg _).1] at hm0
      simp only [List.mem_append, List.mem_singleton] at hm0
      rcases hm0 with hmem | heq
      · exact hst m hmem
      · have hrange := (progressCalc_bounds st.processedRequestID l hl).2
        have : m = progressCalc st.processedRequestID l := by
          simpa using heq
        rw [this]
        exact hrange
    · exact hst n hn

/-- Claim C8: for `processedId ≥ 0` and `lastId ≥ 1`, the progress value
the loop computes equals `floor(min(processedId / lastId, 0.99) * 100)`
(the code's `Math.min(Math.floor((processedId / lastId) * 100), 99)`
coincides with that formula), and every progress value emitted during a
run lies between 0 and 99 inclusive. -/
theorem progress_formula_and_range (p l : Nat) (hl : 1 ≤ l)
    (o : GrepOptions) (pages : List (List Item)) :
    (progressCalc p l = ⌊min ((p : ℚ) / (l : ℚ)) (99 / 100) * 100⌋ ∧
      0 ≤ progressCalc p l ∧ progressCalc p l ≤ 99) ∧
    (∀ n : Int,
      Event.progressEv n ∈
        (fetchAndProcessRequests o l pages initialLoopState).events →
      0 ≤ n ∧ n ≤ 99) := by
  refine ⟨progressCalc_bounds p l hl, ?_⟩
  exact runPages_progress_range o l hl pages initialLoopState (by simp [initialLoopState])

/-- Witness for C8 at `processedId = 3`, `lastId = 7`, one empty page. -/
theorem progress_formula_and_range_witness :
    (progressCalc 3 7 = ⌊min ((3 : ℚ) / (7 : ℚ)) (99 / 100) * 100⌋ ∧
      0 ≤ progressCalc 3 7 ∧ progressCalc 3 7 ≤ 99) ∧
    (∀ n : Int,
      Event.progressEv n ∈
        (fetchAndProcessRequests sampleOptions 7 [[]] initialLoopState).events →
      0 ≤ n ∧ n ≤ 99) :=
  progress_formula_and_range 3 7 (by norm_num) sampleOptions [[]]

/-! ## Claim C9: the filter expression builder -/

theorem strAppend_assoc (a b c : String) : a ++ b ++ c = a ++ (b ++ c) := by
  rcases a with ⟨da⟩
  rcases b with ⟨db⟩
  rcases c with ⟨dc⟩
  exact congrArg String.mk (List.append_assoc da db dc)

/-- The two sequential global replaces of `buildRegexFilter` coincide with
the spec's single-pass backslash-and-quote escape: the first pass creates
no quotes and the second touches no backslashes. -/
theorem escape_two_pass (l : List Char) :
    escapeQuotes (escapeBackslashes l) = (l.map escapeCharSpec).flatten := by
  induction l with
  | nil => rfl
  | cons c t ih =>
    by_cases hb : c = '\\'
    · subst hb
      simp [escapeBackslashes, escapeQuotes, escapeCharSpec, ih]
    · by_cases hq : c = '"'
      · subst hq
        simp [escapeBackslashes, escapeQuotes, escapeCharSpec, ih]
      · simp [escapeBackslashes, escapeQuotes, escapeCharSpec, hb, hq, ih]

theorem escapeRegexSource_eq_spec (s : String) :
    escapeRegexSource s = escapeSpec s :=
  congrArg String.mk (escape_two_pass s.data)

theorem foldl_extension_hom (l : List String) (init : String) :
    l.foldl (fun acc ext => acc ++ (" and req.ext.nlike:\"") ++ ext ++ ("\"")) init =
      init ++
        l.foldl (fun acc ext => acc ++ (" and req.ext.nlike:\"") ++ ext ++ ("\"")) ("") := by
  induction l generalizing init with
  | nil => simp [String.append_empty]
  | cons x xs ih =>
    simp only [List.foldl_cons]
    rw [ih (init ++ (" and req.ext.nlike:\"") ++ x ++ ("\"")),
      ih (("") ++ (" and req.ext.nlike:\"") ++ x ++ ("\"")),
      String.empty_append]
    simp [strAppend_assoc]

/-- Claim C9: `buildRegexFilter` deterministically produces the single
AND chain the spec describes — optional custom filter prepended, the
gated parenthesized OR of the request/response regex terms (empty when
neither flag is set), the backslash-and-quote-escaped pattern, the
response-size bound selected by `skipLargeResponses`, then the fixed
extension-denylist terms. -/
theorem buildRegexFilter_eq_spec (source : String) (o : GrepOptions) :
    buildRegexFilter source o = buildRegexFilterSpec source o := by
  unfold buildRegexFilter buildRegexFilterSpec
  rw [foldl_extension_hom, escapeRegexSource_eq_spec]
  cases hR : o.includeRequests <;> cases hP : o.includeResponses <;>
    cases hC : strTruthy o.customHTTPQL <;> cases hS : o.skipLargeResponses <;>
      simp [joinSep, reqTermSpec, respTermSpec, extensionDenylistSpec,
        strAppend_assoc, String.empty_append]

/-! ## Helper lemmas about the group scan of `extractMatches` -/

theorem firstDefinedGroup_of_find (m : RawMatch) (gs : List Nat) (g : Nat)
    (v : List Char)
    (hf : gs.find? (fun i => (m.getGroup i).isSome) = some g)
    (hv : m.getGroup g = some v) :
    firstDefinedGroup m gs = some (g, v) := by
  induction gs with
  | nil => simp at hf
  | cons i rest ih =>
    rcases hp : m.getGroup i with _ | w
    · rw [List.find?_cons_of_neg _ (by simp [hp])] at hf
      unfold firstDefinedGroup
      rw [hp]
      exact ih hf
    · rw [List.find?_cons_of_pos _ (by simp [hp])] at hf
      have hgi : g = i := by simpa using hf.symm
      subst hgi
      unfold firstDefinedGroup
      rw [hp]
      have : w = v := by
        rw [hp] at hv
        simpa using hv
      rw [this]

theorem firstDefinedGroup_getGroup (m : RawMatch) (gs : List Nat)
    (p : Nat × List Char) (h : firstDefinedGroup m gs = some p) :
    m.getGroup p.1 = some p.2 := by
  induction gs with
  | nil => simp [firstDefinedGroup] at h
  | cons i rest ih =>
    unfold firstDefinedGroup at h
    rcases hp : m.getGroup i with _ | w
    · rw [hp] at h
      exact ih h
    · rw [hp] at h
      have : p = (i, w) := by simpa using h.symm
      subst this
      exact hp

theorem firstDefinedGroup_none (m : RawMatch) (gs : List Nat)
    (h : ∀ g ∈ gs, m.getGroup g = none) :
    firstDefinedGroup m gs = none := by
  induction gs with
  | nil => rfl
  | cons i rest ih =>
    unfold firstDefinedGroup
    rw [h i (by simp)]
    exact ih fun g hg => h g (by simp [hg])

theorem groupsInWhole_getGroup (m : RawMatch) (i : Nat) (v : List Char)
    (hGW : groupsInWhole m = true) (hg : m.getGroup i = some v) :
    (indexOfSub m.whole v).isSome := by
  unfold RawMatch.getGroup at hg
  split at hg
  · have hv : v = m.whole := by simpa using hg.symm
    subst hv
    simp [indexOfSub_self]
  · rw [List.getD_eq_getElem?_getD] at hg
    rcases hq : m.groups[i - 1]? with _ | g
    · rw [hq] at hg
      simp at hg
    · rw [hq] at hg
      simp only [Option.getD_some] at hg
      subst hg
      have hmem : (some v) ∈ m.groups :=
        List.get?_mem (by rw [List.get?_eq_getElem?, hq])
      have := (List.all_eq_true.mp hGW) _ hmem
      simpa using this

/-! Equation lemmas for the four branches of `extractFromRaw`. -/

theorem extractFromRaw_none_eq (m : RawMatch) :
    extractFromRaw none m = wholeExtract m := rfl

theorem extractFromRaw_emptyGroups_eq (m : RawMatch) (gs : List Nat)
    (hlen : gs.length = 0) : extractFromRaw (some gs) m = wholeExtract m := by
  simp only [extractFromRaw, if_pos hlen]

theorem extractFromRaw_fallback_eq (m : RawMatch) (gs : List Nat)
    (hlen : gs.length ≠ 0) (hfd : firstDefinedGroup m gs = none) :
    extractFromRaw (some gs) m = wholeExtract m := by
  simp only [extractFromRaw, if_neg hlen, hfd]

theorem extractFromRaw_group_eq (m : RawMatch) (gs : List Nat)
    (p : Nat × List Char) (hlen : gs.length ≠ 0)
    (hfd : firstDefinedGroup m gs = some p) :
    extractFromRaw (some gs) m =
      { value := p.2,
        startIndex := m.index + (indexOfSub m.whole p.2).getD 0,
        endIndex := m.index + (indexOfSub m.whole p.2).getD 0 + p.2.length } := by
  simp only [extractFromRaw, if_neg hlen, hfd]

/-- Soundness of one extraction step: under the regex engine's
well-formedness and with every capture inside the whole match, the
emitted value sits in bounds and is the very slice of the text that the
indices describe. -/
theorem extractFromRaw_sound (text : List Char) (mg : Option (List Nat))
    (m : RawMatch) (hWF : m.WF text) (hGW : groupsInWhole m = true) :
    (extractFromRaw mg m).endIndex ≤ text.length ∧
    slice text (extractFromRaw mg m).startIndex (extractFromRaw mg m).endIndex
      = (extractFromRaw mg m).value := by
  have hwhole : (text.drop m.index).take m.whole.length = m.whole := hWF.2
  have hwlen : m.index + m.whole.length ≤ text.length := hWF.1
  have hwholeCase : (wholeExtract m).endIndex ≤ text.length ∧
      slice text (wholeExtract m).startIndex (wholeExtract m).endIndex
        = (wholeExtract m).value := by
    refine ⟨hwlen, ?_⟩
    simp only [wholeExtract, slice, Nat.add_sub_cancel_left]
    exact hwhole
  rcases mg with _ | gs
  · rw [extractFromRaw_none_eq]
    exact hwholeCase
  · by_cases hlen : gs.length = 0
    · rw [extractFromRaw_emptyGroups_eq m gs hlen]
      exact hwholeCase
    · rcases hfd : firstDefinedGroup m gs with _ | p
      · rw [extractFromRaw_fallback_eq m gs hlen hfd]
        exact hwholeCase
      · rw [extractFromRaw_group_eq m gs p hlen hfd]
        have hg : m.getGroup p.1 = some p.2 :=
          firstDefinedGroup_getGroup m gs p hfd
        have hsome : (indexOfSub m.whole p.2).isSome :=
          groupsInWhole_getGroup m p.1 p.2 hGW hg
        rcases Option.isSome_iff_exists.mp hsome with ⟨k, hk⟩
        rcases indexOfSub_spec m.whole p.2 k hk with ⟨hkle, hktake⟩
        rw [hk]
        simp only [Option.getD_some]
        constructor
        · show m.index + k + p.2.length ≤ text.length
          omega
        · show slice text (m.index + k) (m.index + k + p.2.length) = p.2
          unfold slice
          rw [Nat.add_sub_cancel_left]
          have h1 : (text.drop m.index).drop k = text.drop (m.index + k) :=
            List.drop_drop ..
          have h3 : (m.whole.drop k).take p.2.length =
              ((text.drop m.index).drop k).take p.2.length := by
            conv_lhs => rw [← hwhole]
            rw [List.drop_take, List.take_take, min_eq_left (by omega)]
          rw [← h1, ← h3, hktake]

/-- Membership form of the soundness lemma, lifted through
`extractMatches`. -/
theorem extractMatches_sound_mem (text : List Char) (rms : List RawMatch)
    (mg : Option (List Nat))
    (h : ∀ m ∈ rms, m.WF text ∧ groupsInWhole m = true) :
    ∀ e ∈ extractMatches text rms mg,
      e.endIndex ≤ text.length ∧
      slice text e.startIndex e.endIndex = e.value := by
  intro e he
  unfold extractMatches at he
  split at he
  · simp at he
  · rcases List.mem_map.mp he with ⟨m, hm, rfl⟩
    exact extractFromRaw_sound text mg m (h m hm).1 (h m hm).2

/-- On every branch, the extracted `endIndex` is `startIndex` plus the
length of the emitted value. -/
theorem extractFromRaw_end_eq (mg : Option (List Nat)) (m : RawMatch) :
    (extractFromRaw mg m).endIndex =
      (extractFromRaw mg m).startIndex + (extractFromRaw mg m).value.length := by
  rcases mg with _ | gs
  · rfl
  · by_cases hlen : gs.length = 0
    · rw [extractFromRaw_emptyGroups_eq m gs hlen]
      rfl
    · rcases hfd : firstDefinedGroup m gs with _ | p
      · rw [extractFromRaw_fallback_eq m gs hlen hfd]
        rfl
      · rw [extractFromRaw_group_eq m gs p hlen hfd]

/-! ## Claim C4: capture-group selection in `extractMatches` -/

/-- Claim C4: with a non-empty group list, `extractMatches` emits one
result per match occurrence; an occurrence where some listed group
participated yields the value of the first such group (scanned in the
given order, characterized by `List.find?`), its start index being the
whole match's offset plus the first occurrence of the captured substring
inside the whole match; an occurrence where no listed group participated
falls back to the whole match, exactly as with an absent or empty group
list. -/
theorem extractMatches_group_selection (text : List Char) (rms : List RawMatch)
    (gs : List Nat) (hgs : gs ≠ []) (htext : text ≠ []) :
    extractMatches text rms (some gs) = rms.map (extractFromRaw (some gs)) ∧
    (∀ (m : RawMatch) (g : Nat) (v : List Char) (k : Nat),
      gs.find? (fun i => (m.getGroup i).isSome) = some g →
      m.getGroup g = some v →
      indexOfSub m.whole v = some k →
      extractFromRaw (some gs) m =
        { value := v, startIndex := m.index + k,
          endIndex := m.index + k + v.length }) ∧
    (∀ m : RawMatch, (∀ g ∈ gs, m.getGroup g = none) →
      extractFromRaw (some gs) m = wholeExtract m ∧
      extractFromRaw none m = wholeExtract m ∧
      extractFromRaw (some []) m = wholeExtract m) := by
  have hlen : gs.length ≠ 0 := fun h => hgs (List.length_eq_zero.mp h)
  refine ⟨?_, ?_, ?_⟩
  · unfold extractMatches
    rw [if_neg htext]
  · intro m g v k hf hv hk
    rw [extractFromRaw_group_eq m gs (g, v) hlen
      (firstDefinedGroup_of_find m gs g v hf hv)]
    rw [hk]
    rfl
  · intro m hnone
    exact ⟨extractFromRaw_fallback_eq m gs hlen (firstDefinedGroup_none m gs hnone),
      extractFromRaw_none_eq m, extractFromRaw_emptyGroups_eq m [] rfl⟩

/-- Witness for C4: on a match of a two-group regex where group 1
captured "b" inside the whole match "ab" at index 0, the listed groups
[1, 2] select group 1 with offsets 1..2. -/
theorem extractMatches_group_selection_witness :
    extractFromRaw (some [1, 2]) mGrouped =
      { value := ['b'], startIndex := 1, endIndex := 2 } :=
  (extractMatches_group_selection ['a', 'b'] [mGrouped] [1, 2]
    (by decide) (by decide)).2.1 mGrouped 1 ['b'] 1
    (by decide) (by decide) (by decide)

/-! ## Claim C5: index bounds of extracted matches -/

/-- Counterexample to claim C5 as stated: the zero-width raw match that
JS produces for a pattern such as b* on the text "a" is emitted by
`extractMatches` with `startIndex = endIndex = 0`, violating the claimed
strict inequality `startIndex < endIndex`. -/
theorem extraction_bounds_counterexample :
    mEmpty.WF aText ∧ groupsInWhole mEmpty = true ∧
    ¬ (∀ e ∈ extractMatches aText [mEmpty] (some [0]),
        e.startIndex < e.endIndex) := by
  decide

/-- Claim C5 as amended: at extraction time every emitted match satisfies
`0 ≤ startIndex ≤ endIndex ≤ length(text)`, with `startIndex < endIndex`
whenever the emitted value is nonempty (a zero-width regex match makes
the two indices equal); the `MatchResult`s built from the extractions by
`findMatchesInRequestResponse` copy the same indices, bounded by the
scanned request or response text respectively. -/
theorem extraction_bounds (text : List Char) (rms : List RawMatch)
    (mg : Option (List Nat))
    (h : ∀ m ∈ rms, m.WF text ∧ groupsInWhole m = true) :
    (∀ e ∈ extractMatches text rms mg,
      e.startIndex ≤ e.endIndex ∧ e.endIndex ≤ text.length ∧
      (e.value ≠ [] → e.startIndex < e.endIndex)) ∧
    (∀ (item : Item) (iR iS : Bool),
      (∀ m ∈ item.reqRaw, m.WF item.reqText ∧ groupsInWhole m = true) →
      (∀ rd, item.resp = some rd →
        ∀ m ∈ rd.2, m.WF rd.1 ∧ groupsInWhole m = true) →
      ∀ mr ∈ findMatchesInRequestResponse item mg iR iS,
        mr.startIndex ≤ mr.endIndex ∧
        (mr.value ≠ [] → mr.startIndex < mr.endIndex) ∧
        (mr.source = Source.request → mr.endIndex ≤ item.reqText.length) ∧
        (∀ rd, item.resp = some rd → mr.source = Source.response →
          mr.endIndex ≤ rd.1.length)) := by
  have extPart : ∀ (text2 : List Char) (rms2 : List RawMatch),
      (∀ m ∈ rms2, m.WF text2 ∧ groupsInWhole m = true) →
      ∀ e ∈ extractMatches text2 rms2 mg,
        e.startIndex ≤ e.endIndex ∧ e.endIndex ≤ text2.length ∧
        (e.value ≠ [] → e.startIndex < e.endIndex) := by
    intro text2 rms2 h2 e he
    have hsound := extractMatches_sound_mem text2 rms2 mg h2 e he
    have hend : e.endIndex = e.startIndex + e.value.length := by
      unfold extractMatches at he
      split at he
      · simp at he
      · rcases List.mem_map.mp he with ⟨m, hm, rfl⟩
        exact extractFromRaw_end_eq mg m
    refine ⟨by omega, hsound.1, ?_⟩
    intro hv
    have : e.value.length ≠ 0 := fun hc => hv (List.length_eq_zero.mp hc)
    omega
  refine ⟨extPart text rms h, ?_⟩
  intro item iR iS hreq hresp mr hmr
  unfold findMatchesInRequestResponse at hmr
  rcases List.mem_append.mp hmr with hA | hB
  · split at hA
    · rcases List.mem_map.mp hA with ⟨e, he, rfl⟩
      have hb := extPart item.reqText item.reqRaw hreq e he
      refine ⟨hb.1, hb.2.2, fun _ => hb.2.1, ?_⟩
      intro rd _ hcontra
      simp at hcontra
    · simp at hA
  · split at hB
    · rcases hre : item.resp with _ | rd
      · rw [hre] at hB
        simp at hB
      · rw [hre] at hB
        rcases List.mem_map.mp hB with ⟨e, he, rfl⟩
        have hb := extPart rd.1 rd.2 (hresp rd hre) e he
        refine ⟨hb.1, hb.2.2, ?_, ?_⟩
        · intro hcontra
          simp at hcontra
        · intro rd2 hrd2 _
          have : rd2 = rd := by
            simpa using hrd2.symm
          rw [this]
          exact hb.2.1
    · simp at hB

/-- Witness for C5 (amended) on a whole-text match "xy" of the text
"xy". -/
theorem extraction_bounds_witness :
    (0 : Nat) ≤ 2 ∧ (2 : Nat) ≤ (['x', 'y'] : List Char).length ∧
    ((['x', 'y'] : List Char) ≠ [] → (0 : Nat) < 2) :=
  (extraction_bounds ['x', 'y'] [{ index := 0, whole := ['x', 'y'], groups := [] }]
    (some [0]) (by decide)).1
    { value := ['x', 'y'], startIndex := 0, endIndex := 2 } (by decide)

/-! ## Claim C10: extracted indices describe the emitted value -/

/-- Counterexample to claim C10 as stated: a lookbehind capture group,
as in JS "abc".matchAll(/(?<=(ab))c/g), captures text outside the whole
match; the substring search inside the whole match fails, the offset
falls back to 0, and the emitted indices 2..4 neither stay inside the
text nor select the emitted value "ab". -/
theorem extraction_slice_counterexample :
    mLookbehind.WF cText ∧
    extractMatches cText [mLookbehind] (some [1]) =
      [{ value := ['a', 'b'], startIndex := 2, endIndex := 4 }] ∧
    ¬ (∀ e ∈ extractMatches cText [mLookbehind] (some [1]),
        slice cText e.startIndex e.endIndex = e.value) := by
  decide

/-- Claim C10 as amended: every extracted match satisfies
`endIndex = startIndex + length(value)` unconditionally; and whenever
every defined capture group of a raw match occurs inside its whole match
(true for regexes without lookaround capture groups, where the
substring search cannot fail), the slice of the text between the emitted
indices equals the emitted value. -/
theorem extraction_slice (text : List Char) (rms : List RawMatch)
    (mg : Option (List Nat))
    (h : ∀ m ∈ rms, m.WF text ∧ groupsInWhole m = true) :
    (∀ (mg2 : Option (List Nat)) (m : RawMatch),
      (extractFromRaw mg2 m).endIndex =
        (extractFromRaw mg2 m).startIndex + (extractFromRaw mg2 m).value.length) ∧
    (∀ e ∈ extractMatches text rms mg,
      e.endIndex = e.startIndex + e.value.length ∧
      slice text e.startIndex e.endIndex = e.value) := by
  refine ⟨extractFromRaw_end_eq, ?_⟩
  intro e he
  refine ⟨?_, (extractMatches_sound_mem text rms mg h e he).2⟩
  unfold extractMatches at he
  split at he
  · simp at he
  · rcases List.mem_map.mp he with ⟨m, hm, rfl⟩
    exact extractFromRaw_end_eq mg m

/-- Witness for C10 (amended) on a whole-text match "xy" of "xy". -/
theorem extraction_slice_witness :
    ((2 : Nat) = 0 + 2) ∧ slice ['x', 'y'] 0 2 = ['x', 'y'] :=
  (extraction_slice ['x', 'y'] [{ index := 0, whole := ['x', 'y'], groups := [] }]
    (some [0]) (by decide)).2
    { value := ['x', 'y'], startIndex := 0, endIndex := 2 } (by decide)

/-! ## Structure of the per-run match map and the result store -/

theorem hasKey_false_not_mem (m : MatchMap) (v : List Char)
    (h : hasKey m v = false) : v ∉ m.map Prod.fst := by
  intro hv
  rcases List.mem_map.mp hv with ⟨p, hp, hpv⟩
  simp only [hasKey, List.any_eq_false] at h
  exact absurd (by simpa using hpv) (by simpa using h p hp)

theorem nodup_insert (m : MatchMap) (v : List Char) (mr : MatchResult)
    (hnd : noDupKeys m) (hk : hasKey m v = false) :
    noDupKeys (m ++ [(v, mr)]) := by
  unfold noDupKeys at hnd ⊢
  rw [List.map_append]
  have hmap : List.map Prod.fst [(v, mr)] = [v] := rfl
  rw [hmap]
  refine hnd.append (List.nodup_singleton v) ?_
  rw [List.disjoint_singleton]
  exact hasKey_false_not_mem m v hk

theorem hasKey_append_left (m e : MatchMap) (v : List Char)
    (h : hasKey m v = true) : hasKey (m ++ e) v = true := by
  simp only [hasKey, List.any_eq_true] at h ⊢
  rcases h with ⟨p, hp, hpv⟩
  exact ⟨p, List.mem_append_left e hp, hpv⟩

theorem mapLookup_append (m e : MatchMap) (v : List Char)
    (h : hasKey m v = true) : mapLookup (m ++ e) v = mapLookup m v := by
  unfold mapLookup
  rw [List.find?_append]
  have hsome : (m.find? (fun p => p.1 = v)).isSome := by
    rw [List.find?_isSome]
    simp only [hasKey, List.any_eq_true] at h
    exact h
  rcases Option.isSome_iff_exists.mp hsome with ⟨x, hx⟩
  rw [hx]
  rfl

theorem addMatch_extends (s : MatchMap) (fm : MatchResult) :
    ∃ es, (addMatch s fm).1 = s ++ es := by
  unfold addMatch
  split
  · exact ⟨[], by simp⟩
  · exact ⟨[(fm.value, fm)], rfl⟩

/-! Equation lemmas for the three branches of `processMatchList`. -/

theorem pml_cons_none (o : GrepOptions) (mr : MatchResult)
    (rest : List MatchResult) (m s : MatchMap)
    (h : processValue o mr.value = none) :
    processMatchList o (mr :: rest) m s = processMatchList o rest m s := by
  simp only [processMatchList, h]

theorem pml_cons_dup (o : GrepOptions) (mr : MatchResult)
    (rest : List MatchResult) (m s : MatchMap) (pv : List Char)
    (h : processValue o mr.value = some pv) (hk : hasKey m pv = true) :
    processMatchList o (mr :: rest) m s = processMatchList o rest m s := by
  simp only [processMatchList, h]
  rw [if_pos hk]

theorem pml_cons_new (o : GrepOptions) (mr : MatchResult)
    (rest : List MatchResult) (m s : MatchMap) (pv : List Char)
    (h : processValue o mr.value = some pv) (hk : hasKey m pv = false) :
    processMatchList o (mr :: rest) m s =
      (if maxReachedB o.maxResults (m ++ [(pv, { mr with value := pv })]).length
       then (m ++ [(pv, { mr with value := pv })],
             (addMatch s { mr with value := pv }).1)
       else processMatchList o rest (m ++ [(pv, { mr with value := pv })])
              ((addMatch s { mr with value := pv }).1)) := by
  simp only [processMatchList, h]
  rw [if_neg (by simp [hk])]

/-! ## Structural facts about `processMatchList` -/

theorem processMatchList_extends (o : GrepOptions) (lst : List MatchResult) :
    ∀ m s : MatchMap,
      (∃ em, (processMatchList o lst m s).1 = m ++ em) ∧
      (∃ es, (processMatchList o lst m s).2 = s ++ es) := by
  induction lst with
  | nil =>
    intro m s
    exact ⟨⟨[], by simp [processMatchList]⟩, ⟨[], by simp [processMatchList]⟩⟩
  | cons mr rest ih =>
    intro m s
    rcases hpv : processValue o mr.value with _ | pv
    · rw [pml_cons_none o mr rest m s hpv]
      exact ih m s
    · by_cases hk : hasKey m pv = true
      · rw [pml_cons_dup o mr rest m s pv hpv hk]
        exact ih m s
      · rw [pml_cons_new o mr rest m s pv hpv (by simpa using hk)]
        rcases addMatch_extends s { mr with value := pv } with ⟨es0, hes0⟩
        split
        · exact ⟨⟨_, rfl⟩, ⟨es0, hes0⟩⟩
        · rcases ih (m ++ [(pv, { mr with value := pv })])
            ((addMatch s { mr with value := pv }).1) with ⟨⟨em, hm⟩, ⟨es, hs⟩⟩
          refine ⟨⟨[(pv, { mr with value := pv })] ++ em, by
            rw [hm, List.append_assoc]⟩, ⟨es0 ++ es, by
            rw [hs, hes0, List.append_assoc]⟩⟩

theorem processMatchList_length (o : GrepOptions) (lst : List MatchResult) :
    ∀ m s : MatchMap,
      (processMatchList o lst m s).1.length ≤ m.length + lst.length := by
  induction lst with
  | nil =>
    intro m s
    simp [processMatchList]
  | cons mr rest ih =>
    intro m s
    rcases hpv : processValue o mr.value with _ | pv
    · rw [pml_cons_none o mr rest m s hpv]
      exact (ih m s).trans (by simp)
    · by_cases hk : hasKey m pv = true
      · rw [pml_cons_dup o mr rest m s pv hpv hk]
        exact (ih m s).trans (by simp)
      · rw [pml_cons_new o mr rest m s pv hpv (by simpa using hk)]
        split
        · simp only [List.length_append, List.length_cons, List.length_nil]
          omega
        · refine (ih _ _).trans ?_
          simp only [List.length_append, List.length_cons, List.length_nil]
          omega

theorem processMatchList_nodup (o : GrepOptions) (lst : List MatchResult) :
    ∀ m s : MatchMap, noDupKeys m → noDupKeys s →
      noDupKeys (processMatchList o lst m s).1 ∧
      noDupKeys (processMatchList o lst m s).2 := by
  induction lst with
  | nil =>
    intro m s hm hs
    exact ⟨hm, hs⟩
  | cons mr rest ih =>
    intro m s hm hs
    rcases hpv : processValue o mr.value with _ | pv
    · rw [pml_cons_none o mr rest m s hpv]
      exact ih m s hm hs
    · by_cases hk : hasKey m pv = true
      · rw [pml_cons_dup o mr rest m s pv hpv hk]
        exact ih m s hm hs
      · rw [pml_cons_new o mr rest m s pv hpv (by simpa using hk)]
        have hm2 : noDupKeys (m ++ [(pv, { mr with value := pv })]) :=
          nodup_insert m pv _ hm (by simpa using hk)
        have hs2 : noDupKeys (addMatch s { mr with value := pv }).1 := by
          unfold addMatch
          split
          · exact hs
          · rename_i hks
            exact nodup_insert s pv _ hs (by simpa using hks)
        split
        · exact ⟨hm2, hs2⟩
        · exact ih _ _ hm2 hs2

theorem processMatchList_store_eq (o : GrepOptions) (lst : List MatchResult) :
    ∀ m : MatchMap,
      (processMatchList o lst m m).2 = (processMatchList o lst m m).1 := by
  induction lst with
  | nil =>
    intro m
    rfl
  | cons mr rest ih =>
    intro m
    rcases hpv : processValue o mr.value with _ | pv
    · rw [pml_cons_none o mr rest m m hpv]
      exact ih m
    · by_cases hk : hasKey m pv = true
      · rw [pml_cons_dup o mr rest m m pv hpv hk]
        exact ih m
      · rw [pml_cons_new o mr rest m m pv hpv (by simpa using hk)]
        have haddm : (addMatch m { mr with value := pv }).1 =
            m ++ [(pv, { mr with value := pv })] := by
          unfold addMatch
          rw [if_neg (by simp [hk])]
        rw [haddm]
        split
        · rfl
        · exact ih _

theorem processMatchList_le_max (o : GrepOptions) (k : Nat)
    (hk : o.maxResults = some k) (hk0 : k ≠ 0) (lst : List MatchResult) :
    ∀ m s : MatchMap, m.length < k →
      (processMatchList o lst m s).1.length ≤ k := by
  induction lst with
  | nil =>
    intro m s hlt
    simpa [processMatchList] using hlt.le
  | cons mr rest ih =>
    intro m s hlt
    rcases hpv : processValue o mr.value with _ | pv
    · rw [pml_cons_none o mr rest m s hpv]
      exact ih m s hlt
    · by_cases hkm : hasKey m pv = true
      · rw [pml_cons_dup o mr rest m s pv hpv hkm]
        exact ih m s hlt
      · rw [pml_cons_new o mr rest m s pv hpv (by simpa using hkm)]
        split
        · show (m ++ [(pv, { mr with value := pv })]).length ≤ k
          simp only [List.length_append, List.length_cons, List.length_nil]
          omega
        · rename_i hnr
          refine ih _ _ ?_
          by_contra hge
          push_neg at hge
          simp only [List.length_append, List.length_cons, List.length_nil] at hge
          exact hnr (by simp [maxReachedB, hk, hk0]; omega)

/-! ## Structural facts about `processItems` -/

theorem processItems_extends (o : GrepOptions) (items : List Item) :
    ∀ st : LoopState,
      (∃ em, (processItems o items st).matchesMap = st.matchesMap ++ em) ∧
      (∃ es, (processItems o items st).store = st.store ++ es) := by
  induction items with
  | nil =>
    intro st
    exact ⟨⟨[], by simp [processItems]⟩, ⟨[], by simp [processItems]⟩⟩
  | cons item rest ih =>
    intro st
    simp only [processItems]
    split
    · exact ⟨⟨[], by simp⟩, ⟨[], by simp⟩⟩
    · split
      · exact ih _
      · rcases processMatchList_extends o
          (findMatchesInRequestResponse item o.matchGroups
            o.includeRequests o.includeResponses)
          st.matchesMap st.store with ⟨⟨em0, hm0⟩, ⟨es0, hs0⟩⟩
        rcases ih ({ st with
            processedRequestID := item.id
            matchesMap := (processMatchList o
              (findMatchesInRequestResponse item o.matchGroups
                o.includeRequests o.includeResponses) st.matchesMap st.store).1
            store := (processMatchList o
              (findMatchesInRequestResponse item o.matchGroups
                o.includeRequests o.includeResponses) st.matchesMap st.store).2 })
          with ⟨⟨em1, hm1⟩, ⟨es1, hs1⟩⟩
        refine ⟨⟨em0 ++ em1, ?_⟩, ⟨es0 ++ es1, ?_⟩⟩
        · rw [hm1]
          dsimp only
          rw [hm0, List.append_assoc]
        · rw [hs1]
          dsimp only
          rw [hs0, List.append_assoc]

theorem processItems_length (o : GrepOptions) (items : List Item) :
    ∀ st : LoopState,
      (processItems o items st).matchesMap.length ≤
        st.matchesMap.length +
          (items.map (fun item =>
            (findMatchesInRequestResponse item o.matchGroups
              o.includeRequests o.includeResponses).length)).sum := by
  induction items with
  | nil =>
    intro st
    simp [processItems]
  | cons item rest ih =>
    intro st
    simp only [processItems]
    split
    · simp
    · split
      · refine (ih _).trans ?_
        dsimp only
        simp only [List.map_cons, List.sum_cons]
        omega
      · refine (ih _).trans ?_
        dsimp only
        have := processMatchList_length o
          (findMatchesInRequestResponse item o.matchGroups
            o.includeRequests o.includeResponses) st.matchesMap st.store
        simp only [List.map_cons, List.sum_cons]
        omega

theorem processItems_nodup (o : GrepOptions) (items : List Item) :
    ∀ st : LoopState, noDupKeys st.matchesMap → noDupKeys st.store →
      noDupKeys (processItems o items st).matchesMap ∧
      noDupKeys (processItems o items st).store := by
  induction items with
  | nil =>
    intro st hm hs
    exact ⟨hm, hs⟩
  | cons item rest ih =>
    intro st hm hs
    simp only [processItems]
    split
    · exact ⟨hm, hs⟩
    · split
      · exact ih _ hm hs
      · have hp := processMatchList_nodup o
          (findMatchesInRequestResponse item o.matchGroups
            o.includeRequests o.includeResponses) st.matchesMap st.store hm hs
        exact ih _ hp.1 hp.2

theorem processItems_store_eq (o : GrepOptions) (items : List Item) :
    ∀ st : LoopState, st.store = st.matchesMap →
      (processItems o items st).store = (processItems o items st).matchesMap := by
  induction items with
  | nil =>
    intro st h
    exact h
  | cons item rest ih =>
    intro st h
    simp only [processItems]
    split
    · exact h
    · split
      · exact ih _ h
      · refine ih _ ?_
        dsimp only
        rw [h]
        exact processMatchList_store_eq o
          (findMatchesInRequestResponse item o.matchGroups
            o.includeRequests o.includeResponses) st.matchesMap

theorem processItems_le_max (o : GrepOptions) (k : Nat)
    (hk : o.maxResults = some k) (hk0 : k ≠ 0) (items : List Item) :
    ∀ st : LoopState, st.matchesMap.length ≤ k →
      (processItems o items st).matchesMap.length ≤ k := by
  induction items with
  | nil =>
    intro st hle
    exact hle
  | cons item rest ih =>
    intro st hle
    simp only [processItems]
    split
    · exact hle
    · rename_i hmax
      split
      · exact ih _ hle
      · refine ih _ ?_
        dsimp only
        have hlt : st.matchesMap.length < k := by
          by_contra hge
          push_neg at hge
          exact hmax (by simp [maxReachedB, hk, hk0]; omega)
        exact processMatchList_le_max o k hk hk0
          (findMatchesInRequestResponse item o.matchGroups
            o.includeRequests o.includeResponses) st.matchesMap st.store hlt

/-! ## Structural facts about `emitMatches`, `processPage` and the loop -/

theorem emitMatches_state (st : LoopState) :
    (emitMatches st).matchesMap = st.matchesMap ∧
    (emitMatches st).store = st.store ∧
    (emitMatches st).processedRequestID = st.processedRequestID := by
  unfold emitMatches
  split
  · exact ⟨rfl, rfl, rfl⟩
  · exact ⟨rfl, rfl, rfl⟩

theorem processPage_extends (o : GrepOptions) (l : Nat) (pg : List Item)
    (st : LoopState) :
    (∃ em, (processPage o l pg st).matchesMap = st.matchesMap ++ em) ∧
    (∃ es, (processPage o l pg st).store = st.store ++ es) := by
  unfold processPage
  rcases emitMatches_state (processItems o pg
    { st with events := st.events ++
        [Event.progressEv (progressCalc st.processedRequestID l)] }) with ⟨h1, h2, _⟩
  rw [h1, h2]
  exact processItems_extends o pg _

theorem processPage_length (o : GrepOptions) (l : Nat) (pg : List Item)
    (st : LoopState) :
    (processPage o l pg st).matchesMap.length ≤
      st.matchesMap.length +
        (pg.map (fun item =>
          (findMatchesInRequestResponse item o.matchGroups
            o.includeRequests o.includeResponses).length)).sum := by
  unfold processPage
  rw [(emitMatches_state _).1]
  exact processItems_length o pg _

theorem processPage_nodup (o : GrepOptions) (l : Nat) (pg : List Item)
    (st : LoopState) (hm : noDupKeys st.matchesMap) (hs : noDupKeys st.store) :
    noDupKeys (processPage o l pg st).matchesMap ∧
    noDupKeys (processPage o l pg st).store := by
  unfold processPage
  rw [(emitMatches_state _).1, (emitMatches_state _).2.1]
  exact processItems_nodup o pg _ hm hs

theorem processPage_store_eq (o : GrepOptions) (l : Nat) (pg : List Item)
    (st : LoopState) (h : st.store = st.matchesMap) :
    (processPage o l pg st).store = (processPage o l pg st).matchesMap := by
  unfold processPage
  rw [(emitMatches_state _).1, (emitMatches_state _).2.1]
  exact processItems_store_eq o pg _ h

theorem processPage_le_max (o : GrepOptions) (k : Nat)
    (hk : o.maxResults = some k) (hk0 : k ≠ 0) (l : Nat) (pg : List Item)
    (st : LoopState) (hle : st.matchesMap.length ≤ k) :
    (processPage o l pg st).matchesMap.length ≤ k := by
  unfold processPage
  rw [(emitMatches_state _).1]
  exact processItems_le_max o k hk hk0 pg _ hle

theorem runPages_stuck (o : GrepOptions) (l : Nat) (pages : List (List Item))
    (st : LoopState) (h : loopCondB o.maxResults st.matchesMap.length = false) :
    fetchAndProcessRequests o l pages st = st := by
  cases pages with
  | nil => rfl
  | cons pg rest =>
    unfold fetchAndProcessRequests
    rw [if_neg (by simp [h])]

theorem runPages_append (o : GrepOptions) (l : Nat)
    (a b : List (List Item)) :
    ∀ st : LoopState,
      fetchAndProcessRequests o l (a ++ b) st =
        fetchAndProcessRequests o l b (fetchAndProcessRequests o l a st) := by
  induction a with
  | nil =>
    intro st
    rfl
  | cons pg rest ih =>
    intro st
    show fetchAndProcessRequests o l (pg :: (rest ++ b)) st = _
    simp only [fetchAndProcessRequests]
    by_cases hc : loopCondB o.maxResults st.matchesMap.length = true
    · rw [if_pos hc, if_pos hc]
      exact ih _
    · rw [if_neg hc, if_neg hc]
      exact (runPages_stuck o l b st (by simpa using hc)).symm

theorem runPages_extends (o : GrepOptions) (l : Nat) (pages : List (List Item)) :
    ∀ st : LoopState,
      (∃ em, (fetchAndProcessRequests o l pages st).matchesMap = st.matchesMap ++ em) ∧
      (∃ es, (fetchAndProcessRequests o l pages st).store = st.store ++ es) := by
  induction pages with
  | nil =>
    intro st
    exact ⟨⟨[], by simp [fetchAndProcessRequests]⟩, ⟨[], by simp [fetchAndProcessRequests]⟩⟩
  | cons pg rest ih =>
    intro st
    unfold fetchAndProcessRequests
    split
    · rcases processPage_extends o l pg st with ⟨⟨em0, hm0⟩, ⟨es0, hs0⟩⟩
      rcases ih (processPage o l pg st) with ⟨⟨em1, hm1⟩, ⟨es1, hs1⟩⟩
      exact ⟨⟨em0 ++ em1, by rw [hm1, hm0, List.append_assoc]⟩,
        ⟨es0 ++ es1, by rw [hs1, hs0, List.append_assoc]⟩⟩
    · exact ⟨⟨[], by simp⟩, ⟨[], by simp⟩⟩

theorem runPages_length (o : GrepOptions) (l : Nat) (pages : List (List Item)) :
    ∀ st : LoopState,
      (fetchAndProcessRequests o l pages st).matchesMap.length ≤
        st.matchesMap.length + totalRawMatches o pages := by
  induction pages with
  | nil =>
    intro st
    simp [fetchAndProcessRequests, totalRawMatches]
  | cons pg rest ih =>
    intro st
    unfold fetchAndProcessRequests
    split
    · refine (ih _).trans ?_
      have := processPage_length o l pg st
      simp only [totalRawMatches, List.map_cons, List.sum_cons] at this ⊢
      omega
    · simp [totalRawMatches]

theorem runPages_nodup (o : GrepOptions) (l : Nat) (pages : List (List Item)) :
    ∀ st : LoopState, noDupKeys st.matchesMap → noDupKeys st.store →
      noDupKeys (fetchAndProcessRequests o l pages st).matchesMap ∧
      noDupKeys (fetchAndProcessRequests o l pages st).store := by
  induction pages with
  | nil =>
    intro st hm hs
    exact ⟨hm, hs⟩
  | cons pg rest ih =>
    intro st hm hs
    unfold fetchAndProcessRequests
    split
    · have := processPage_nodup o l pg st hm hs
      exact ih _ this.1 this.2
    · exact ⟨hm, hs⟩

theorem runPages_store_eq (o : GrepOptions) (l : Nat) (pages : List (List Item)) :
    ∀ st : LoopState, st.store = st.matchesMap →
      (fetchAndProcessRequests o l pages st).store =
        (fetchAndProcessRequests o l pages st).matchesMap := by
  induction pages with
  | nil =>
    intro st h
    exact h
  | cons pg rest ih =>
    intro st h
    unfold fetchAndProcessRequests
    split
    · exact ih _ (processPage_store_eq o l pg st h)
    · exact h

theorem runPages_le_max (o : GrepOptions) (k : Nat)
    (hk : o.maxResults = some k) (hk0 : k ≠ 0) (l : Nat)
    (pages : List (List Item)) :
    ∀ st : LoopState, st.matchesMap.length ≤ k →
      (fetchAndProcessRequests o l pages st).matchesMap.length ≤ k := by
  induction pages with
  | nil =>
    intro st hle
    exact hle
  | cons pg rest ih =>
    intro st hle
    unfold fetchAndProcessRequests
    split
    · exact ih _ (processPage_le_max o k hk hk0 l pg st hle)
    · exact hle

theorem runPages_lookup_preserved (o : GrepOptions) (l : Nat)
    (pages : List (List Item)) (st : LoopState) (v : List Char)
    (h : hasKey st.store v = true) :
    mapLookup (fetchAndProcessRequests o l pages st).store v =
      mapLookup st.store v := by
  rcases (runPages_extends o l pages st).2 with ⟨es, hes⟩
  rw [hes]
  exact mapLookup_append st.store es v h

/-! ## Claim C2: deduplication invariant of a run -/

/-- Claim C2: after any run, no two entries of the Result Store share the
same final value (the store coincides with the per-run map, which is
keyed by the post-cleanup post-transform value, compared exactly); the
run's distinct-match count is at most the total number of raw matches
extracted; and once a value is stored, processing any further pages
leaves its stored `MatchResult` unchanged — the first-seen instance is
kept regardless of later matches with the same value. -/
theorem run_dedup_invariant (o : GrepOptions) (lastId : Nat)
    (pages more : List (List Item)) (v : List Char) :
    noDupKeys (fetchAndProcessRequests o lastId pages initialLoopState).store ∧
    (fetchAndProcessRequests o lastId pages initialLoopState).store =
      (fetchAndProcessRequests o lastId pages initialLoopState).matchesMap ∧
    (fetchAndProcessRequests o lastId pages initialLoopState).matchesMap.length ≤
      totalRawMatches o pages ∧
    (hasKey (fetchAndProcessRequests o lastId pages initialLoopState).store v = true →
      mapLookup
        (fetchAndProcessRequests o lastId (pages ++ more) initialLoopState).store v =
      mapLookup (fetchAndProcessRequests o lastId pages initialLoopState).store v) := by
  refine ⟨?_, ?_, ?_, ?_⟩
  · exact (runPages_nodup o lastId pages initialLoopState
      (by simp [initialLoopState, noDupKeys])
      (by simp [initialLoopState, noDupKeys])).2
  · exact runPages_store_eq o lastId pages initialLoopState rfl
  · have := runPages_length o lastId pages initialLoopState
    simpa [initialLoopState] using this
  · intro h
    rw [runPages_append o lastId pages more initialLoopState]
    exact runPages_lookup_preserved o lastId more _ v h

/-- Witness for C2: a run over one page containing the request "xy";
a later page repeats the value "xy", and the stored record stays the
first one. -/
theorem run_dedup_invariant_witness :
    noDupKeys (fetchAndProcessRequests sampleOptions 2 [[sampleItem]]
      initialLoopState).store ∧
    (fetchAndProcessRequests sampleOptions 2 [[sampleItem]]
        initialLoopState).store =
      (fetchAndProcessRequests sampleOptions 2 [[sampleItem]]
        initialLoopState).matchesMap ∧
    (fetchAndProcessRequests sampleOptions 2 [[sampleItem]]
        initialLoopState).matchesMap.length ≤
      totalRawMatches sampleOptions [[sampleItem]] ∧
    mapLookup (fetchAndProcessRequests sampleOptions 2
        ([[sampleItem]] ++ [[sampleItem2]]) initialLoopState).store ['x', 'y'] =
      mapLookup (fetchAndProcessRequests sampleOptions 2 [[sampleItem]]
        initialLoopState).store ['x', 'y'] := by
  have h := run_dedup_invariant sampleOptions 2 [[sampleItem]] [[sampleItem2]]
    ['x', 'y']
  exact ⟨h.1, h.2.1, h.2.2.1, h.2.2.2 (by decide)⟩

/-! ## Claim C3: the `maxResults` bound -/

/-- Claim C3: with `maxResults = k > 0`, the distinct-match count at the
end of the pagination loop is at most `k` — the loop's while condition,
the per-record break, and the post-insertion break of the inner loop
together keep both the per-run map and the Result Store at no more than
`k` entries. -/
theorem run_maxResults_bound (o : GrepOptions) (k lastId : Nat)
    (hk : o.maxResults = some k) (hpos : 0 < k) (pages : List (List Item)) :
    (fetchAndProcessRequests o lastId pages initialLoopState).matchesMap.length ≤ k ∧
    (fetchAndProcessRequests o lastId pages initialLoopState).store.length ≤ k := by
  have h1 := runPages_le_max o k hk (Nat.pos_iff_ne_zero.mp hpos) lastId pages
    initialLoopState (by simp [initialLoopState])
  refine ⟨h1, ?_⟩
  rw [runPages_store_eq o lastId pages initialLoopState rfl]
  exact h1

/-- Witness for C3 with `maxResults = 2` over a page holding three raw
matches with two distinct values. -/
theorem run_maxResults_bound_witness :
    (fetchAndProcessRequests { sampleOptions with maxResults := some 2 } 2
      [[sampleItem, sampleItem2]] initialLoopState).matchesMap.length ≤ 2 ∧
    (fetchAndProcessRequests { sampleOptions with maxResults := some 2 } 2
      [[sampleItem, sampleItem2]] initialLoopState).store.length ≤ 2 :=
  run_maxResults_bound { sampleOptions with maxResults := some 2 } 2 2 rfl
    (by norm_num) [[sampleItem, sampleItem2]]

/-! ## Claim C6: the page-end `matches` emission protocol -/

theorem joinedArrays_append (a b : List Event) :
    joinedArrays (a ++ b) = joinedArrays a ++ joinedArrays b := by
  induction a with
  | nil => rfl
  | cons ev rest ih =>
    cases ev with
    | progressEv n => simpa [joinedArrays] using ih
    | matchesArr ms => simpa [joinedArrays, List.append_assoc] using ih
    | matchesCount n => simpa [joinedArrays] using ih

theorem naac_append_nonarr (evs : List Event) (ev : Event)
    (h : NoArrAfterCount evs) (ha : ∀ ms, ev ≠ Event.matchesArr ms) :
    NoArrAfterCount (evs ++ [ev]) := by
  induction evs with
  | nil =>
    refine ⟨fun _ ms hmem => ?_, trivial⟩
    simp at hmem
  | cons e rest ih =>
    refine ⟨fun hc ms hmem => ?_, ih h.2⟩
    rcases List.mem_append.mp hmem with hmem | hmem
    · exact h.1 hc ms hmem
    · have hq : Event.matchesArr ms = ev := by simpa using hmem
      exact ha ms hq.symm

theorem naac_append_arr (evs : List Event) (ms : List MatchResult)
    (h : NoArrAfterCount evs) (hnc : hasCountEvent evs = false) :
    NoArrAfterCount (evs ++ [Event.matchesArr ms]) := by
  induction evs with
  | nil =>
    refine ⟨fun hc _ _ => ?_, trivial⟩
    simp [isCountEvent] at hc
  | cons e rest ih =>
    simp only [hasCountEvent, List.any_cons, Bool.or_eq_false_iff] at hnc
    refine ⟨fun hc _ _ => ?_, ih h.2 (by simpa [hasCountEvent] using hnc.2)⟩
    rw [hnc.1] at hc
    cases hc

theorem hasCountEvent_append_single (evs : List Event) (ev : Event) :
    hasCountEvent (evs ++ [ev]) = (hasCountEvent evs || isCountEvent ev) := by
  simp [hasCountEvent, List.any_append]

theorem emitInv_progressAppend (st : LoopState) (n : Int) (h : EmitInv st) :
    EmitInv { st with events := st.events ++ [Event.progressEv n] } := by
  have hj : joinedArrays (st.events ++ [Event.progressEv n]) =
      joinedArrays st.events := by
    rw [joinedArrays_append]
    simp [joinedArrays]
  refine ⟨h.sent_le, ?_, ?_, ?_, ?_, ?_, ?_⟩
  · dsimp only
    rw [hj]
    exact h.arraysTake
  · dsimp only
    rw [hj]
    exact h.len_le
  · dsimp only
    rw [hj]
    exact h.crossed
  · exact naac_append_nonarr st.events _ h.noArr (by intro ms hc; cases hc)
  · dsimp only
    rw [hasCountEvent_append_single]
    simp only [isCountEvent, Bool.or_false]
    exact h.countCross
  · intro ev hev
    rcases List.mem_append.mp hev with hmem | hmem
    · exact h.ev_nonempty ev hmem
    · have : ev = Event.progressEv n := by simpa using hmem
      subst this
      exact And.intro (fun _ hc => nomatch hc) (fun _ hc => nomatch hc)

theorem emitInv_processItems (o : GrepOptions) (items : List Item)
    (st : LoopState) (h : EmitInv st) : EmitInv (processItems o items st) := by
  rcases (processItems_extends o items st).1 with ⟨em, hm⟩
  have hev := (processItems_events_eq o items st).1
  have hsent := (processItems_events_eq o items st).2
  have hLle : (joinedArrays st.events).length ≤ st.matchesMap.length :=
    h.len_le.trans h.sent_le
  refine ⟨?_, ?_, ?_, ?_, ?_, ?_, ?_⟩
  · rw [hsent, hm]
    refine h.sent_le.trans ?_
    simp
  · rw [hev, hm, List.map_append,
      List.take_append_of_le_length (by simpa using hLle)]
    exact h.arraysTake
  · rw [hev, hsent]
    exact h.len_le
  · rw [hev, hsent]
    exact h.crossed
  · rw [hev]
    exact h.noArr
  · rw [hev, hsent]
    exact h.countCross
  · rw [hev]
    exact h.ev_nonempty

theorem emitInv_emitMatches (st : LoopState) (h : EmitInv st) :
    EmitInv (emitMatches st) := by
  unfold emitMatches
  split
  · rename_i hgrow
    dsimp only
    by_cases hc : st.sentMatchCount > 25000
    · rw [if_pos hc]
      have hj : joinedArrays (st.events ++
          [Event.matchesCount ((st.matchesMap.map (fun p => p.2)).drop
            st.sentMatchCount).length]) = joinedArrays st.events := by
        rw [joinedArrays_append]
        simp [joinedArrays]
      refine ⟨?_, ?_, ?_, ?_, ?_, ?_, ?_⟩
      · dsimp only
        exact le_refl _
      · dsimp only
        rw [hj]
        exact h.arraysTake
      · dsimp only
        rw [hj]
        exact h.len_le.trans (le_of_lt hgrow)
      · dsimp only
        rw [hj]
        intro _
        rcases eq_or_ne (joinedArrays st.events).length st.sentMatchCount with
          heq | hne
        · rw [heq]
          exact hc
        · exact h.crossed hne
      · exact naac_append_nonarr st.events _ h.noArr (by intro ms hk; cases hk)
      · dsimp only
        intro _
        exact hc.trans hgrow
      · intro ev hev
        rcases List.mem_append.mp hev with hmem | hmem
        · exact h.ev_nonempty ev hmem
        · have hevq : ev = Event.matchesCount
              ((st.matchesMap.map (fun p => p.2)).drop st.sentMatchCount).length := by
            simpa using hmem
          subst hevq
          refine And.intro (fun _ hk => nomatch hk) (fun n hk => ?_)
          have : n = ((st.matchesMap.map (fun p => p.2)).drop
              st.sentMatchCount).length := by
            cases hk
            rfl
          subst this
          simp only [List.length_drop, List.length_map]
          omega
    · rw [if_neg hc]
      push_neg at hc
      have hLeq : (joinedArrays st.events).length = st.sentMatchCount := by
        rcases eq_or_ne (joinedArrays st.events).length st.sentMatchCount with
          heq | hne
        · exact heq
        · have h1 := h.crossed hne
          have h2 := h.len_le
          omega
      have hj : joinedArrays (st.events ++
          [Event.matchesArr ((st.matchesMap.map (fun p => p.2)).drop
            st.sentMatchCount)]) =
          st.matchesMap.map (fun p => p.2) := by
        rw [joinedArrays_append]
        simp only [joinedArrays, List.append_nil]
        rw [h.arraysTake, hLeq]
        exact List.take_append_drop _ _
      have hjlen : (joinedArrays (st.events ++
          [Event.matchesArr ((st.matchesMap.map (fun p => p.2)).drop
            st.sentMatchCount)])).length = st.matchesMap.length := by
        rw [hj]
        simp
      refine ⟨?_, ?_, ?_, ?_, ?_, ?_, ?_⟩
      · dsimp only
        exact le_refl _
      · dsimp only
        rw [hjlen, hj]
        simp
      · dsimp only
        rw [hjlen]
      · dsimp only
        rw [hjlen]
        intro hne
        exact absurd rfl hne
      · have hnc : hasCountEvent st.events = false := by
          by_contra hcc
          have := h.countCross (by simpa using hcc)
          omega
        exact naac_append_arr st.events _ h.noArr hnc
      · dsimp only
        rw [hasCountEvent_append_single]
        simp only [isCountEvent, Bool.or_false]
        intro hcnt
        have := h.countCross hcnt
        omega
      · intro ev hev
        rcases List.mem_append.mp hev with hmem | hmem
        · exact h.ev_nonempty ev hmem
        · have hevq : ev = Event.matchesArr
              ((st.matchesMap.map (fun p => p.2)).drop st.sentMatchCount) := by
            simpa using hmem
          subst hevq
          refine ⟨fun ms hk => ?_, fun _ hk => by cases hk⟩
          have hms : ms = (st.matchesMap.map (fun p => p.2)).drop
              st.sentMatchCount := by
            cases hk
            rfl
          subst hms
          intro hnil
          have := congrArg List.length hnil
          simp only [List.length_drop, List.length_map, List.length_nil] at this
          omega
  · exact h

theorem emitInv_processPage (o : GrepOptions) (l : Nat) (pg : List Item)
    (st : LoopState) (h : EmitInv st) : EmitInv (processPage o l pg st) := by
  unfold processPage
  exact emitInv_emitMatches _ (emitInv_processItems o pg _
    (emitInv_progressAppend st _ h))

theorem emitInv_runPages (o : GrepOptions) (l : Nat)
    (pages : List (List Item)) :
    ∀ st : LoopState, EmitInv st →
      EmitInv (fetchAndProcessRequests o l pages st) := by
  induction pages with
  | nil =>
    intro st h
    exact h
  | cons pg rest ih =>
    intro st h
    unfold fetchAndProcessRequests
    split
    · exact ih _ (emitInv_processPage o l pg st h)
    · exact h

theorem emitInv_init : EmitInv initialLoopState := by
  refine ⟨?_, ?_, ?_, ?_, ?_, ?_, ?_⟩ <;>
    simp [initialLoopState, joinedArrays, NoArrAfterCount, hasCountEvent]

/-- Claim C6: a `matches` event is emitted at page end only when the
distinct-match count grew; while the previously-sent count is at most
25,000 the event carries exactly the newly added `MatchResult`s (the
slice of the per-run map past the high-water mark), and once it exceeds
25,000 it carries only the integer count of new matches; the high-water
mark is updated to the current count either way.  Over a whole run the
array payloads concatenate to a duplicate-free prefix of the final match
list (so no record is ever sent twice), every emitted event is
non-trivial, and after the first count-form event no array-form event
ever follows. -/
theorem matches_emission_protocol (o : GrepOptions) (l : Nat)
    (pages : List (List Item)) :
    (∀ st : LoopState, st.matchesMap.length ≤ st.sentMatchCount →
      emitMatches st = st) ∧
    (∀ st : LoopState, st.sentMatchCount < st.matchesMap.length →
      st.sentMatchCount ≤ 25000 →
      emitMatches st = { st with
        events := st.events ++
          [Event.matchesArr ((st.matchesMap.map (fun p => p.2)).drop
            st.sentMatchCount)],
        sentMatchCount := st.matchesMap.length }) ∧
    (∀ st : LoopState, st.sentMatchCount < st.matchesMap.length →
      25000 < st.sentMatchCount →
      emitMatches st = { st with
        events := st.events ++
          [Event.matchesCount ((st.matchesMap.map (fun p => p.2)).drop
            st.sentMatchCount).length],
        sentMatchCount := st.matchesMap.length }) ∧
    (joinedArrays (fetchAndProcessRequests o l pages initialLoopState).events =
      ((fetchAndProcessRequests o l pages initialLoopState).matchesMap.map
        Prod.snd).take
        (joinedArrays
          (fetchAndProcessRequests o l pages initialLoopState).events).length ∧
     NoArrAfterCount (fetchAndProcessRequests o l pages initialLoopState).events ∧
     (∀ ev ∈ (fetchAndProcessRequests o l pages initialLoopState).events,
       (∀ ms, ev = Event.matchesArr ms → ms ≠ []) ∧
       (∀ n, ev = Event.matchesCount n → 0 < n))) := by
  have hinv := emitInv_runPages o l pages initialLoopState emitInv_init
  refine ⟨?_, ?_, ?_, hinv.arraysTake, hinv.noArr, hinv.ev_nonempty⟩
  · intro st hle
    unfold emitMatches
    rw [if_neg (by omega)]
  · intro st hgrow hle
    unfold emitMatches
    rw [if_pos (by omega)]
    dsimp only
    rw [if_neg (by omega)]
  · intro st hgrow hgt
    unfold emitMatches
    rw [if_pos (by omega)]
    dsimp only
    rw [if_pos (by omega)]

/-- Witness for C6: the no-growth case on the initial state, plus the
run-level trace facts for a concrete one-page run. -/
theorem matches_emission_protocol_witness :
    emitMatches initialLoopState = initialLoopState ∧
    NoArrAfterCount (fetchAndProcessRequests sampleOptions 2 [[sampleItem]]
      initialLoopState).events :=
  ⟨(matches_emission_protocol sampleOptions 2 [[sampleItem]]).1
      initialLoopState (by decide),
    (matches_emission_protocol sampleOptions 2 [[sampleItem]]).2.2.2.2.1⟩

end DataGrep
